import Mathlib

/-!
# MemoryWidget core logic, shallowly embedded

A shallow embedding of the non-GUI logic of
`Source/Core/DolphinQt/Debugger/MemoryWidget.cpp`: address/offset
resolution (`GetTargetAddress`), value validation and preview
(`ValidateAndPreviewInputValue`), byte extraction (`GetInputData`) and
the find loop (`FindValue`).

Texts are modelled as `List Char`, bytes as `Nat` values below 256, and
32-bit machine arithmetic as `Nat`/`Int` with explicit `% 2^32` where
the C++ would wrap.  Qt's string-to-integer conversions (`toUInt`,
`toInt`, `toShort`, `toUShort` with an explicit base, including the
C-convention base `0`) are embedded directly; Qt also skips surrounding
whitespace, which we do not model, so the embedded parsers accept a
subset of the texts Qt accepts and agree with Qt on that subset.
`toFloat`/`toDouble` (IEEE-754 parsing) are kept abstract as oracle
parameters returning the parsed value's bit pattern.
-/

namespace MemoryWidget

/-- A byte: a natural number below 256 (all producers keep it so). -/
abbrev Byte := Nat

/-! ## Hex digits and Qt integer parsing -/

/-- Numeric value of a hexadecimal digit character, if it is one. -/
def hexDigitVal? (c : Char) : Option Nat :=
  if '0' ≤ c ∧ c ≤ '9' then some (c.toNat - 48)
  else if 'a' ≤ c ∧ c ≤ 'f' then some (c.toNat - 87)
  else if 'A' ≤ c ∧ c ≤ 'F' then some (c.toNat - 55)
  else none

/-- Is `c` a hexadecimal digit character? -/
def isHexDigit (c : Char) : Bool := (hexDigitVal? c).isSome

/-- Numeric value of a digit character in base `base ≤ 16`. -/
def digitVal? (base : Nat) (c : Char) : Option Nat :=
  match hexDigitVal? c with
  | some v => if v < base then some v else none
  | none => none

/-- Accumulating digit parser: every remaining character must be a
digit of `base`. -/
def parseDigitsAux (base : Nat) (acc : Nat) : List Char → Option Nat
  | [] => some acc
  | c :: rest =>
    match digitVal? base c with
    | some d => parseDigitsAux base (base * acc + d) rest
    | none => none

/-- Parse a non-empty all-digit string in base `base`. -/
def parseDigits (base : Nat) (cs : List Char) : Option Nat :=
  if cs.isEmpty then none else parseDigitsAux base 0 cs

/-- Base resolution as in C `strtol` (used by Qt): an explicit base 16
allows an optional `0x`/`0X` prefix; base 0 auto-detects: `0x` prefix
means 16, a leading `0` means octal, otherwise decimal. -/
def resolveBase (base : Nat) (cs : List Char) : Nat × List Char :=
  if base = 16 then
    match cs with
    | c0 :: x :: rest =>
      if c0 = '0' ∧ (x = 'x' ∨ x = 'X') then (16, rest) else (16, cs)
    | _ => (16, cs)
  else if base = 0 then
    match cs with
    | c0 :: x :: rest =>
      if c0 = '0' then
        if x = 'x' ∨ x = 'X' then (16, rest) else (8, cs)
      else (10, cs)
    | [c0] => if c0 = '0' then (8, cs) else (10, cs)
    | [] => (10, [])
  else (base, cs)

/-- Drop an optional leading `+` (Qt rejects `-` for unsigned). -/
def stripPlus : List Char → List Char
  | '+' :: rest => rest
  | cs => cs

/-- Split off an optional leading sign; the flag is true for `-`. -/
def splitSign : List Char → Bool × List Char
  | '-' :: rest => (true, rest)
  | '+' :: rest => (false, rest)
  | cs => (false, cs)

/-- Qt `QString::toUInt`/`toUShort` with explicit base: an optional `+`,
base prefix resolution, all remaining characters digits, and a range
check against `max`. -/
def qtToUnsigned (base : Nat) (max : Nat) (cs : List Char) : Option Nat :=
  let bd := resolveBase base (stripPlus cs)
  match parseDigits bd.1 bd.2 with
  | some v => if v ≤ max then some v else none
  | none => none

/-- Qt `QString::toInt`/`toShort` with explicit base: an optional sign,
base prefix resolution, digits, and a range check against
`[min, max]`. -/
def qtToSigned (base : Nat) (min max : Int) (cs : List Char) : Option Int :=
  let sgn := splitSign cs
  let bd := resolveBase base sgn.2
  match parseDigits bd.1 bd.2 with
  | some v =>
    let value : Int := if sgn.1 then -(v : Int) else (v : Int)
    if min ≤ value ∧ value ≤ max then some value else none
  | none => none

/-! ## GetTargetAddress -/

/-- `MemoryWidget::TargetAddress` (MemoryWidget.h). -/
structure TargetAddress where
  address : Nat := 0
  is_good_address : Bool := false
  is_good_offset : Bool := false
  deriving Repr, DecidableEq

/-- The value of a signed 32-bit quantity reinterpreted as `u32`. -/
def u32OfInt (i : Int) : Nat := (i % (2 ^ 32 : Int)).toNat

/-- `MemoryWidget::GetTargetAddress` (MemoryWidget.cpp:797-820).
`toUInt`/`toInt` return 0 when conversion fails; under
`is_good_offset`, `addr - neg_offset` and `addr + u32(offset)` do not
wrap, so plain `Nat` subtraction and `% 2^32` addition reproduce the
`u32` arithmetic. -/
def GetTargetAddress (addrText offsetText : List Char) : TargetAddress :=
  let addrRes := qtToUnsigned 16 (2 ^ 32 - 1) addrText
  let addr : Nat := addrRes.getD 0
  let is_good_address := addrRes.isSome || addrText.isEmpty
  let offRes := qtToSigned 16 (-(2 ^ 31)) (2 ^ 31 - 1) offsetText
  let offset : Int := offRes.getD 0
  let neg_offset : Nat :=
    if offset ≠ -(2 ^ 31) then u32OfInt (-offset) else (2 ^ 31 - 1) + 1
  let good0 := offRes.isSome || offsetText.isEmpty
  let good1 := good0 && (decide (0 ≤ offset) || decide (neg_offset ≤ addr))
  let is_good_offset :=
    good1 && (decide (offset ≤ 0) || decide (2 ^ 32 - 1 - u32OfInt offset ≥ addr))
  if ¬(is_good_address && is_good_offset) then
    { is_good_address := is_good_address, is_good_offset := is_good_offset }
  else if offset < 0 then
    { address := addr - neg_offset
      is_good_address := is_good_address, is_good_offset := is_good_offset }
  else
    { address := (addr + u32OfInt offset) % 2 ^ 32
      is_good_address := is_good_address, is_good_offset := is_good_offset }

/-! ## Hex formatting -/

/-- Uppercase hexadecimal digit character for `n < 16`. -/
def hexDigitUpper (n : Nat) : Char :=
  if n < 10 then Char.ofNat (48 + n) else Char.ofNat (55 + n)

/-- Lowercase hexadecimal digit character for `n < 16`. -/
def hexDigitLower (n : Nat) : Char :=
  if n < 10 then Char.ofNat (48 + n) else Char.ofNat (87 + n)

/-- Fuel-driven worker for `toHexDigits`; any `fuel ≥ n` gives the true
digit list, and the recursion is structural so that the kernel can
evaluate it. -/
def toHexDigitsAux : Nat → Nat → List Nat
  | _, 0 => []
  | 0, _ + 1 => []
  | fuel + 1, n + 1 => toHexDigitsAux fuel ((n + 1) / 16) ++ [(n + 1) % 16]

/-- Hexadecimal digit values of `n`, most significant first (`[]` for 0). -/
def toHexDigits (n : Nat) : List Nat := toHexDigitsAux n n

/-- `fmt`-style zero-padded uppercase hex (`{:0wX}` / `%0wX`): at least
`w` digits, more when the value needs them. -/
def fmtHexUpper (w : Nat) (n : Nat) : List Char :=
  (List.replicate (w - (toHexDigits n).length) 0 ++ toHexDigits n).map hexDigitUpper

/-- `QString::arg(value, w, 16, '0')`-style zero-padded lowercase hex. -/
def fmtHexLower (w : Nat) (n : Nat) : List Char :=
  (List.replicate (w - (toHexDigits n).length) 0 ++ toHexDigits n).map hexDigitLower

/-- `QByteArray::toHex`: two lowercase hex digits per byte. -/
def bytesToHexLower : List Byte → List Char
  | [] => []
  | b :: rest => hexDigitLower (b / 16 % 16) :: hexDigitLower (b % 16) :: bytesToHexLower rest

/-! ## Qt byte conversions -/

/-- `QString::toLatin1`, per character: code points up to 0xFF keep
their value, other basic-plane code points become `?` (0x3F), and
supplementary code points (two UTF-16 code units in `QString`) become
two `?` bytes. -/
def latin1Char (c : Char) : List Byte :=
  if c.toNat ≤ 0xFF then [c.toNat]
  else if c.toNat ≤ 0xFFFF then [0x3F]
  else [0x3F, 0x3F]

/-- `QString::toLatin1` over a text. -/
def latin1Bytes : List Char → List Byte
  | [] => []
  | c :: cs => latin1Char c ++ latin1Bytes cs

/-- UTF-8 encoding of one code point (`QString::toUtf8`, per
character). -/
def utf8Char (c : Char) : List Byte :=
  let n := c.toNat
  if n < 0x80 then [n]
  else if n < 0x800 then [0xC0 + n / 64, 0x80 + n % 64]
  else if n < 0x10000 then [0xE0 + n / 4096, 0x80 + n / 64 % 64, 0x80 + n % 64]
  else [0xF0 + n / 262144, 0x80 + n / 4096 % 64, 0x80 + n / 64 % 64, 0x80 + n % 64]

/-- `QString::toUtf8` over a text. -/
def utf8Bytes : List Char → List Byte
  | [] => []
  | c :: cs => utf8Char c ++ utf8Bytes cs

/-- Worker for `QByteArray::fromHex`, which assembles bytes from the
END of the string, low nibble first, skipping characters that are not
hex digits; `pending` holds a low nibble waiting for its high one.
The input here is the original string reversed. -/
def fromHexAux : List Char → Option Nat → List Byte → List Byte
  | [], none, acc => acc
  | [], some lo, acc => lo :: acc
  | c :: rest, pending, acc =>
    match hexDigitVal? c, pending with
    | none, p => fromHexAux rest p acc
    | some d, none => fromHexAux rest (some d) acc
    | some d, some lo => fromHexAux rest none ((16 * d + lo) :: acc)

/-- `QByteArray::fromHex`. -/
def fromHexQt (cs : List Char) : List Byte := fromHexAux cs.reverse none []

/-! ## ValidateAndPreviewInputValue -/

/-- `InputID` (MemoryWidget.h:23-36). -/
inductive InputID
  | S8 | S16 | S32 | U8 | U16 | U32 | HEXSTR | FLOAT | DOUBLE | ASCII
  deriving Repr, DecidableEq

/-- Whether `m_base_check` is enabled for this encoding
(MemoryWidget.cpp:505-507). -/
def baseCheckEnabled : InputID → Bool
  | .U32 | .S32 | .U16 | .S16 | .U8 | .S8 => true
  | _ => false

/-- The regular expression `^([0-9A-F]{2})*$` (case-insensitive):
an even-length string of hex digits. -/
def isEvenHex (cs : List Char) : Bool :=
  cs.all isHexDigit && cs.length % 2 == 0

/-- The switch of `MemoryWidget::ValidateAndPreviewInputValue`
(MemoryWidget.cpp:509-612): returns the untruncated `hex_string` when
`good`, `none` otherwise (also on empty input, where the function
returns early with the preview cleared).  `floatBits`/`doubleBits`
stand for `toFloat`/`toDouble` composed with `BitCast`: the bit
pattern of the parsed IEEE-754 value, or `none` when parsing fails. -/
def validateHexString (floatBits doubleBits : List Char → Option Nat)
    (editText : List Char) (combo : InputID) (baseChecked : Bool) :
    Option (List Char) :=
  if editText.isEmpty then none
  else
    let input := if combo ≠ InputID.ASCII then editText.filter (fun c => c ≠ ' ')
                 else editText
    let radix := if baseChecked && baseCheckEnabled combo then 16 else 0
    match combo with
    | .ASCII => some (bytesToHexLower (latin1Bytes input))
    | .FLOAT => (floatBits input).map fun bits => fmtHexUpper 8 (bits % 2 ^ 32)
    | .DOUBLE => (doubleBits input).map fun bits => fmtHexUpper 16 (bits % 2 ^ 64)
    | .S8 =>
      match qtToSigned radix (-(2 ^ 15)) (2 ^ 15 - 1) input with
      | some v =>
        if -(2 ^ 7) ≤ v ∧ v ≤ 2 ^ 7 - 1 then some (fmtHexUpper 2 (u32OfInt v % 2 ^ 8))
        else none
      | none => none
    | .S16 =>
      (qtToSigned radix (-(2 ^ 15)) (2 ^ 15 - 1) input).map fun v =>
        fmtHexUpper 4 (u32OfInt v % 2 ^ 16)
    | .S32 =>
      (qtToSigned radix (-(2 ^ 31)) (2 ^ 31 - 1) input).map fun v =>
        fmtHexUpper 8 (u32OfInt v)
    | .U8 =>
      match qtToUnsigned radix (2 ^ 16 - 1) input with
      | some v => if v &&& 0xFF00 = 0 then some (fmtHexUpper 2 v) else none
      | none => none
    | .U16 => (qtToUnsigned radix (2 ^ 16 - 1) input).map fun v => fmtHexUpper 4 v
    | .U32 => (qtToUnsigned radix (2 ^ 32 - 1) input).map fun v => fmtHexUpper 8 v
    | .HEXSTR =>
      if isEvenHex input then some (bytesToHexLower (fromHexQt input)) else none

/-- Modelled from the spec: the validation as §4.2 describes it —
"when enabled, integer text is parsed in base 16, otherwise base 10" —
for comparison against the code's `validateHexString`, which passes
radix 0 instead of 10.  Identical to `validateHexString` in every
other respect. -/
def validateHexStringSpecBase10 (floatBits doubleBits : List Char → Option Nat)
    (editText : List Char) (combo : InputID) (baseChecked : Bool) :
    Option (List Char) :=
  if editText.isEmpty then none
  else
    let input := if combo ≠ InputID.ASCII then editText.filter (fun c => c ≠ ' ')
                 else editText
    let radix := if baseChecked && baseCheckEnabled combo then 16 else 10
    match combo with
    | .ASCII => some (bytesToHexLower (latin1Bytes input))
    | .FLOAT => (floatBits input).map fun bits => fmtHexUpper 8 (bits % 2 ^ 32)
    | .DOUBLE => (doubleBits input).map fun bits => fmtHexUpper 16 (bits % 2 ^ 64)
    | .S8 =>
      match qtToSigned radix (-(2 ^ 15)) (2 ^ 15 - 1) input with
      | some v =>
        if -(2 ^ 7) ≤ v ∧ v ≤ 2 ^ 7 - 1 then some (fmtHexUpper 2 (u32OfInt v % 2 ^ 8))
        else none
      | none => none
    | .S16 =>
      (qtToSigned radix (-(2 ^ 15)) (2 ^ 15 - 1) input).map fun v =>
        fmtHexUpper 4 (u32OfInt v % 2 ^ 16)
    | .S32 =>
      (qtToSigned radix (-(2 ^ 31)) (2 ^ 31 - 1) input).map fun v =>
        fmtHexUpper 8 (u32OfInt v)
    | .U8 =>
      match qtToUnsigned radix (2 ^ 16 - 1) input with
      | some v => if v &&& 0xFF00 = 0 then some (fmtHexUpper 2 v) else none
      | none => none
    | .U16 => (qtToUnsigned radix (2 ^ 16 - 1) input).map fun v => fmtHexUpper 4 v
    | .U32 => (qtToUnsigned radix (2 ^ 32 - 1) input).map fun v => fmtHexUpper 8 v
    | .HEXSTR =>
      if isEvenHex input then some (bytesToHexLower (fromHexQt input)) else none

/-- The space-insertion loop (MemoryWidget.cpp:625-626): for
`i = 2, 4, ...` while `i < L`, insert a space at index `L - i`; the
iterations are indexed by `k` with `i = 2 * (k + 1)`, of which there
are `(L - 1) / 2`.  Inserts walk right to left, so positions computed
against the original length stay correct on the evolving string. -/
def insertSpacesLoop (s : List Char) (L : Nat) : List Char :=
  (List.range ((L - 1) / 2)).foldl
    (fun t k => List.insertIdx (L - (2 * k + 2)) ' ' t) s

/-- The display transform of a good `hex_string`
(MemoryWidget.cpp:614-628): truncate beyond 16 hex characters, append
`...`, then group in byte pairs. -/
def previewText (hex : List Char) : List Char :=
  if hex.length > 16 then insertSpacesLoop (hex.take 16 ++ ['.', '.', '.']) 16
  else insertSpacesLoop hex hex.length

/-- The preview text after `ValidateAndPreviewInputValue` ran: cleared
on entry, set only when `good`. -/
def validatePreview (floatBits doubleBits : List Char → Option Nat)
    (editText : List Char) (combo : InputID) (baseChecked : Bool) : List Char :=
  match validateHexString floatBits doubleBits editText combo baseChecked with
  | some h => previewText h
  | none => []

/-- `MemoryWidget::GetInputData` (MemoryWidget.cpp:640-658), a function
of the edit text, the selected encoding and the current preview text. -/
def GetInputData (editText : List Char) (combo : InputID)
    (preview : List Char) : List Byte :=
  if preview.isEmpty then []
  else if combo = InputID.ASCII then utf8Bytes editText
  else if combo = InputID.HEXSTR then fromHexQt editText
  else fromHexQt preview

/-! ## FindValue -/

/-- Does `pattern` occur in memory `mem` at address `a`? -/
def matchesAt (mem : Nat → Byte) (pattern : List Byte) (a : Nat) : Bool :=
  (List.range pattern.length).all fun i => mem (a + i) == pattern.getD i 0

/-- Modelled from the spec: `AddressSpace::Accessors::Search` (the
memory-region search primitive, not part of this repository's sources;
spec §4.3/§6): scan the region `[b, e)` in the given direction from
`start`, comparing the pattern at each candidate position, bounded by
the region's extent with no wrap; return the first match. -/
def regionSearch (b e : Nat) (mem : Nat → Byte) (start : Nat)
    (pattern : List Byte) (forward : Bool) : Option Nat :=
  let len := pattern.length
  if len = 0 ∨ b + len > e then none
  else
    let last := e - len
    if forward then
      let lo := Max.max b start
      if lo ≤ last then
        (List.range' lo (last + 1 - lo)).find? (matchesAt mem pattern)
      else none
    else
      let hi := Min.min start last
      if b ≤ hi then
        ((List.range' b (hi + 1 - b)).reverse).find? (matchesAt mem pattern)
      else none

/-- Outcome of `MemoryWidget::FindValue`, by result-label branch. -/
inductive FindResult
  | badAddress | badOffset | badValue
  | found (addr : Nat)
  | notFound
  deriving Repr, DecidableEq

/-- `MemoryWidget::FindValue` (MemoryWidget.cpp:822-873) over a region
`[b, e)` with contents `mem`, as a function of the two search texts and
the input data (`GetInputData`); `next` selects forward search.  The
`+1`/`-1` start adjustment is `u32` arithmetic, hence the `% 2 ^ 32`. -/
def FindValue (b e : Nat) (mem : Nat → Byte) (addrText offsetText : List Char)
    (inputData : List Byte) (next : Bool) : FindResult :=
  let target := GetTargetAddress addrText offsetText
  if ¬target.is_good_address then .badAddress
  else if ¬target.is_good_offset then .badOffset
  else if inputData.isEmpty then .badValue
  else
    let start :=
      if ¬addrText.isEmpty then
        (target.address + (if next then 1 else 2 ^ 32 - 1)) % 2 ^ 32
      else target.address
    match regionSearch b e mem start inputData next with
    | some a => .found a
    | none => .notFound

/-- `QStringLiteral("%1").arg(offset, 8, 16, QLatin1Char('0'))`:
lowercase hexadecimal, zero-padded to at least 8 characters. -/
def qtArgHex8 (n : Nat) : List Char := fmtHexLower 8 n

/-- The search-address and search-offset texts after `FindValue`
(MemoryWidget.cpp:858-869): on a match the address text is set to the
formatted found address and the offset text is cleared; otherwise both
are left alone. -/
def findValueTexts (b e : Nat) (mem : Nat → Byte)
    (addrText offsetText : List Char) (inputData : List Byte) (next : Bool) :
    List Char × List Char :=
  match FindValue b e mem addrText offsetText inputData next with
  | .found a => (qtArgHex8 a, [])
  | _ => (addrText, offsetText)

/-! ## Parse bounds -/

theorem qtToUnsigned_le {base max : Nat} {cs : List Char} {v : Nat}
    (h : qtToUnsigned base max cs = some v) : v ≤ max := by
  simp only [qtToUnsigned] at h
  split at h
  · split at h
    · cases h; assumption
    · cases h
  · cases h

theorem qtToSigned_bounds {base : Nat} {min max : Int} {cs : List Char} {v : Int}
    (h : qtToSigned base min max cs = some v) : min ≤ v ∧ v ≤ max := by
  simp only [qtToSigned] at h
  split at h
  · split at h <;> split at h <;> (try cases h) <;> assumption
  · cases h

/-- When the offset is in the signed 32-bit range, the `neg_offset`
expression's explicit most-negative case coincides with the generic
one, so the conditional collapses. -/
theorem negOffsetIte (o : Int) (hmin : -(2 ^ 31) ≤ o) :
    (if o ≠ -(2 ^ 31) then ((-o) % (2 ^ 32 : Int)).toNat else (2 ^ 31 - 1) + 1)
      = ((-o) % (2 ^ 32 : Int)).toNat := by
  split
  · rfl
  · rename_i h
    rw [not_not] at h
    subst h
    omega

/-! ## C1, C2 -/

/-- Shared workhorse for the resolution claims: with both texts
parsing, `GetTargetAddress` returns an in-range sum with both flags
true, and reports a bad offset on an out-of-range sum. -/
theorem getTargetAddress_sum (A O : List Char) (a : Nat) (o : Int)
    (hA : qtToUnsigned 16 (2 ^ 32 - 1) A = some a)
    (hO : qtToSigned 16 (-(2 ^ 31)) (2 ^ 31 - 1) O = some o) :
    (0 ≤ (a : Int) + o ∧ (a : Int) + o < 2 ^ 32 →
      GetTargetAddress A O = ⟨((a : Int) + o).toNat, true, true⟩) ∧
    ((a : Int) + o < 0 ∨ (2 ^ 32 : Int) ≤ (a : Int) + o →
      (GetTargetAddress A O).is_good_offset = false) := by
  have ha := qtToUnsigned_le hA
  have ho := qtToSigned_bounds hO
  simp only [GetTargetAddress, hA, hO, Option.getD_some, Option.isSome_some,
    Bool.true_or, Bool.true_and, u32OfInt, negOffsetIte o ho.1]
  constructor
  · rintro ⟨h0, h1⟩
    split
    · -- rejected branch: contradicts the in-range hypothesis
      exfalso
      rename_i hcond
      simp only [Bool.and_eq_true, Bool.or_eq_true, decide_eq_true_eq] at hcond
      omega
    · rename_i hcond
      rw [not_not] at hcond
      simp only [Bool.and_eq_true, Bool.or_eq_true, decide_eq_true_eq] at hcond
      split <;>
        (simp only [TargetAddress.mk.injEq, Bool.and_eq_true, Bool.or_eq_true,
           decide_eq_true_eq]
         refine ⟨by omega, trivial, by omega⟩)
  · intro hbad
    split <;> rename_i hcond
    · simp only [Bool.and_eq_true, Bool.or_eq_true, decide_eq_true_eq] at hcond
      simp only [Bool.and_eq_false_iff, Bool.or_eq_false_iff,
        decide_eq_false_iff_not]
      omega
    · exfalso
      rw [not_not] at hcond
      simp only [Bool.and_eq_true, Bool.or_eq_true, decide_eq_true_eq] at hcond
      omega

/-- C1: for address text parsing as unsigned 32-bit hex and offset text
parsing as signed 32-bit hex, if the true sum lies in `[0, 2^32)` then
`GetTargetAddress` returns the sum with both flags true; if the sum is
below zero or above `2^32 - 1`, `is_good_offset` is false. -/
theorem C1_resolve_sum (A O : List Char) (a : Nat) (o : Int)
    (hA : qtToUnsigned 16 (2 ^ 32 - 1) A = some a)
    (hO : qtToSigned 16 (-(2 ^ 31)) (2 ^ 31 - 1) O = some o) :
    (0 ≤ (a : Int) + o ∧ (a : Int) + o < 2 ^ 32 →
      GetTargetAddress A O = ⟨((a : Int) + o).toNat, true, true⟩) ∧
    ((a : Int) + o < 0 ∨ (2 ^ 32 : Int) ≤ (a : Int) + o →
      (GetTargetAddress A O).is_good_offset = false) :=
  getTargetAddress_sum A O a o hA hO

/-- Closed witness for `C1_resolve_sum`: address text `10`, offset
text `-1`, so the sum is 15. -/
theorem C1_resolve_sum_witness :
    qtToUnsigned 16 (2 ^ 32 - 1) ['1', '0'] = some 16 ∧
    qtToSigned 16 (-(2 ^ 31)) (2 ^ 31 - 1) ['-', '1'] = some (-1) ∧
    GetTargetAddress ['1', '0'] ['-', '1'] = ⟨15, true, true⟩ :=
  ⟨by decide, by decide, by
    have h := (C1_resolve_sum ['1', '0'] ['-', '1'] 16 (-1) (by decide) (by decide)).1
      (by norm_num)
    norm_num at h
    exact h⟩

/-- C2: when the offset text parses to the most negative signed 32-bit
value, `is_good_offset` is false exactly when the base address is below
`2^31`, and otherwise the resolution succeeds with `base - 2^31`. -/
theorem C2_min_offset (A O : List Char) (a : Nat)
    (hA : qtToUnsigned 16 (2 ^ 32 - 1) A = some a)
    (hO : qtToSigned 16 (-(2 ^ 31)) (2 ^ 31 - 1) O = some (-(2 ^ 31))) :
    ((GetTargetAddress A O).is_good_offset = false ↔ a < 2 ^ 31) ∧
    (2 ^ 31 ≤ a → GetTargetAddress A O = ⟨a - 2 ^ 31, true, true⟩) := by
  have ha := qtToUnsigned_le hA
  have h := getTargetAddress_sum A O a (-(2 ^ 31)) hA hO
  have hgood : 2 ^ 31 ≤ a → GetTargetAddress A O = ⟨a - 2 ^ 31, true, true⟩ := by
    intro hge
    have he := h.1 ⟨by omega, by omega⟩
    rw [he]
    have : ((a : Int) + -(2 ^ 31)).toNat = a - 2 ^ 31 := by omega
    rw [this]
  refine ⟨⟨fun hfalse => ?_, fun hlt => h.2 (Or.inl (by omega))⟩, hgood⟩
  by_contra hge
  rw [hgood (by omega)] at hfalse
  simp at hfalse

/-- Closed witness for `C2_min_offset`: base `80000000`, offset
`-80000000`, resolving to 0. -/
theorem C2_min_offset_witness :
    qtToUnsigned 16 (2 ^ 32 - 1) ['8', '0', '0', '0', '0', '0', '0', '0']
      = some (2 ^ 31) ∧
    qtToSigned 16 (-(2 ^ 31)) (2 ^ 31 - 1)
      ['-', '8', '0', '0', '0', '0', '0', '0', '0'] = some (-(2 ^ 31)) ∧
    GetTargetAddress ['8', '0', '0', '0', '0', '0', '0', '0']
      ['-', '8', '0', '0', '0', '0', '0', '0', '0'] = ⟨0, true, true⟩ :=
  ⟨by decide, by decide, by
    have h := (C2_min_offset ['8', '0', '0', '0', '0', '0', '0', '0']
      ['-', '8', '0', '0', '0', '0', '0', '0', '0'] (2 ^ 31)
      (by decide) (by decide)).2 (le_refl _)
    norm_num at h
    exact h⟩

/-! ## Digits: formatting and parsing round trip -/

theorem toHexDigitsAux_congr (n : Nat) :
    ∀ fuel fuel', n ≤ fuel → n ≤ fuel' →
      toHexDigitsAux fuel n = toHexDigitsAux fuel' n := by
  induction n using Nat.strong_induction_on with
  | _ n ih =>
    intro fuel fuel' h h'
    match n, fuel, fuel' with
    | 0, fuel, fuel' => cases fuel <;> cases fuel' <;> rfl
    | m + 1, f + 1, f' + 1 =>
      simp only [toHexDigitsAux]
      rw [ih ((m + 1) / 16) (by omega) f f' (by omega) (by omega)]

theorem toHexDigits_succ {n : Nat} (h : n ≠ 0) :
    toHexDigits n = toHexDigits (n / 16) ++ [n % 16] := by
  unfold toHexDigits
  match n, h with
  | m + 1, _ =>
    simp only [toHexDigitsAux]
    rw [toHexDigitsAux_congr ((m + 1) / 16) m ((m + 1) / 16) (by omega) (le_refl _)]

theorem toHexDigits_lt {n : Nat} : ∀ d ∈ toHexDigits n, d < 16 := by
  induction n using Nat.strong_induction_on with
  | _ n ih =>
    rcases Nat.eq_zero_or_pos n with h | h
    · subst h; intro d hd; cases hd
    · rw [toHexDigits_succ (by omega)]
      intro d hd
      rcases List.mem_append.mp hd with h1 | h1
      · exact ih (n / 16) (by omega) d h1
      · simp only [List.mem_singleton] at h1
        omega

theorem toHexDigits_length {n w : Nat} (h : n < 16 ^ w) :
    (toHexDigits n).length ≤ w := by
  induction w generalizing n with
  | zero =>
    simp only [pow_zero, Nat.lt_one_iff] at h
    subst h; rfl
  | succ w ih =>
    rcases Nat.eq_zero_or_pos n with h0 | h0
    · subst h0; exact Nat.zero_le _
    · rw [toHexDigits_succ (by omega)]
      have : n / 16 < 16 ^ w := by
        rw [Nat.div_lt_iff_lt_mul (by norm_num)]
        calc n < 16 ^ (w + 1) := h
          _ = 16 ^ w * 16 := by ring
      simp only [List.length_append, List.length_singleton]
      have := ih this
      omega

theorem toHexDigits_foldl {n : Nat} :
    ∀ acc, (toHexDigits n).foldl (fun a d => 16 * a + d) acc
      = acc * 16 ^ (toHexDigits n).length + n := by
  induction n using Nat.strong_induction_on with
  | _ n ih =>
    intro acc
    rcases Nat.eq_zero_or_pos n with h | h
    · subst h; simp [toHexDigits, toHexDigitsAux]
    · rw [toHexDigits_succ (by omega), List.foldl_append,
        ih (n / 16) (by omega) acc]
      simp only [List.foldl_cons, List.foldl_nil, List.length_append,
        List.length_singleton]
      rw [pow_succ]
      have : 16 * (n / 16) + n % 16 = n := Nat.div_add_mod n 16
      ring_nf
      omega

theorem hexDigitVal?_upper {d : Nat} (h : d < 16) :
    hexDigitVal? (hexDigitUpper d) = some d := by
  interval_cases d <;> rfl

theorem hexDigitVal?_lower {d : Nat} (h : d < 16) :
    hexDigitVal? (hexDigitLower d) = some d := by
  interval_cases d <;> rfl

theorem parseDigitsAux_map_upper {l : List Nat} (h : ∀ d ∈ l, d < 16) :
    ∀ acc, parseDigitsAux 16 acc (l.map hexDigitUpper)
      = some (l.foldl (fun a d => 16 * a + d) acc) := by
  induction l with
  | nil => intro acc; rfl
  | cons d rest ih =>
    intro acc
    have hd : d < 16 := h d (List.mem_cons_self _ _)
    simp only [List.map_cons, parseDigitsAux, digitVal?, hexDigitVal?_upper hd,
      if_pos hd, List.foldl_cons]
    exact ih (fun x hx => h x (List.mem_cons_of_mem _ hx)) _

theorem parseDigitsAux_map_lower {l : List Nat} (h : ∀ d ∈ l, d < 16) :
    ∀ acc, parseDigitsAux 16 acc (l.map hexDigitLower)
      = some (l.foldl (fun a d => 16 * a + d) acc) := by
  induction l with
  | nil => intro acc; rfl
  | cons d rest ih =>
    intro acc
    have hd : d < 16 := h d (List.mem_cons_self _ _)
    simp only [List.map_cons, parseDigitsAux, digitVal?, hexDigitVal?_lower hd,
      if_pos hd, List.foldl_cons]
    exact ih (fun x hx => h x (List.mem_cons_of_mem _ hx)) _

/-- The padded digit list of `fmtHexUpper`/`fmtHexLower`, before
mapping to characters. -/
def padDigits (w n : Nat) : List Nat :=
  List.replicate (w - (toHexDigits n).length) 0 ++ toHexDigits n

theorem fmtHexUpper_eq_map (w n : Nat) :
    fmtHexUpper w n = (padDigits w n).map hexDigitUpper := rfl

theorem fmtHexLower_eq_map (w n : Nat) :
    fmtHexLower w n = (padDigits w n).map hexDigitLower := rfl

theorem padDigits_lt {w n : Nat} : ∀ d ∈ padDigits w n, d < 16 := by
  intro d hd
  rcases List.mem_append.mp hd with h | h
  · rw [List.eq_of_mem_replicate h]; omega
  · exact toHexDigits_lt d h

theorem padDigits_foldl (w n : Nat) :
    (padDigits w n).foldl (fun a d => 16 * a + d) 0 = n := by
  unfold padDigits
  rw [List.foldl_append]
  have hrep : ∀ k, (List.replicate k 0).foldl (fun a d => 16 * a + d) 0 = 0 := by
    intro k
    induction k with
    | zero => rfl
    | succ k ih => simpa [List.replicate_succ] using ih
  rw [hrep, toHexDigits_foldl]
  simp

theorem padDigits_length_pos {w n : Nat} (hw : 0 < w) :
    0 < (padDigits w n).length := by
  unfold padDigits
  simp only [List.length_append, List.length_replicate]
  omega

theorem isHexDigit_fmtHexUpper {w n : Nat} :
    ∀ c ∈ fmtHexUpper w n, isHexDigit c = true := by
  intro c hc
  rw [fmtHexUpper_eq_map] at hc
  rcases List.mem_map.mp hc with ⟨d, hd, rfl⟩
  simp [isHexDigit, hexDigitVal?_upper (padDigits_lt d hd)]

theorem isHexDigit_fmtHexLower {w n : Nat} :
    ∀ c ∈ fmtHexLower w n, isHexDigit c = true := by
  intro c hc
  rw [fmtHexLower_eq_map] at hc
  rcases List.mem_map.mp hc with ⟨d, hd, rfl⟩
  simp [isHexDigit, hexDigitVal?_lower (padDigits_lt d hd)]

theorem stripPlus_of_hex {cs : List Char} (h : ∀ c ∈ cs, isHexDigit c = true) :
    stripPlus cs = cs := by
  unfold stripPlus
  split
  · rename_i rest
    have := h '+' (List.mem_cons_self _ _)
    simp [isHexDigit, hexDigitVal?] at this
  · rfl

theorem splitSign_of_hex {cs : List Char} (h : ∀ c ∈ cs, isHexDigit c = true) :
    splitSign cs = (false, cs) := by
  unfold splitSign
  split
  · rename_i rest
    have := h '-' (List.mem_cons_self _ _)
    simp [isHexDigit, hexDigitVal?] at this
  · rename_i rest
    have := h '+' (List.mem_cons_self _ _)
    simp [isHexDigit, hexDigitVal?] at this
  · rfl

theorem resolveBase16_of_hex {cs : List Char} (h : ∀ c ∈ cs, isHexDigit c = true) :
    resolveBase 16 cs = (16, cs) := by
  match cs with
  | [] => rfl
  | [c] => rfl
  | c0 :: x :: rest =>
    simp only [resolveBase, if_true]
    rw [if_neg]
    rintro ⟨-, rfl | rfl⟩
    · have hx := h 'x' (by simp)
      simp [isHexDigit, hexDigitVal?] at hx
    · have hx := h 'X' (by simp)
      simp [isHexDigit, hexDigitVal?] at hx

theorem parseDigits_map_upper {l : List Nat} (h : ∀ d ∈ l, d < 16)
    (hne : 0 < l.length) :
    parseDigits 16 (l.map hexDigitUpper) = some (l.foldl (fun a d => 16 * a + d) 0) := by
  match l, hne with
  | d :: rest, _ =>
    simp only [parseDigits, List.map_cons, List.isEmpty_cons, Bool.false_eq_true,
      if_false]
    exact parseDigitsAux_map_upper h 0

theorem parseDigits_map_lower {l : List Nat} (h : ∀ d ∈ l, d < 16)
    (hne : 0 < l.length) :
    parseDigits 16 (l.map hexDigitLower) = some (l.foldl (fun a d => 16 * a + d) 0) := by
  match l, hne with
  | d :: rest, _ =>
    simp only [parseDigits, List.map_cons, List.isEmpty_cons, Bool.false_eq_true,
      if_false]
    exact parseDigitsAux_map_lower h 0

/-- Parsing back an uppercase zero-padded hex rendering recovers the
value. -/
theorem qtToUnsigned_fmtHexUpper {w n max : Nat} (hw : 0 < w) (hmax : n ≤ max) :
    qtToUnsigned 16 max (fmtHexUpper w n) = some n := by
  unfold qtToUnsigned
  rw [stripPlus_of_hex isHexDigit_fmtHexUpper,
    resolveBase16_of_hex isHexDigit_fmtHexUpper]
  simp only
  rw [fmtHexUpper_eq_map,
    parseDigits_map_upper padDigits_lt (padDigits_length_pos hw),
    padDigits_foldl]
  simp [hmax]

/-- Parsing back a lowercase zero-padded hex rendering recovers the
value. -/
theorem qtToUnsigned_fmtHexLower {w n max : Nat} (hw : 0 < w) (hmax : n ≤ max) :
    qtToUnsigned 16 max (fmtHexLower w n) = some n := by
  unfold qtToUnsigned
  rw [stripPlus_of_hex isHexDigit_fmtHexLower,
    resolveBase16_of_hex isHexDigit_fmtHexLower]
  simp only
  rw [fmtHexLower_eq_map,
    parseDigits_map_lower padDigits_lt (padDigits_length_pos hw),
    padDigits_foldl]
  simp [hmax]

/-- Signed variant of the parse-back lemma. -/
theorem qtToSigned_fmtHexUpper {w n : Nat} {min max : Int} (hw : 0 < w)
    (hmin : min ≤ (n : Int)) (hmax : (n : Int) ≤ max) :
    qtToSigned 16 min max (fmtHexUpper w n) = some (n : Int) := by
  unfold qtToSigned
  rw [splitSign_of_hex isHexDigit_fmtHexUpper]
  simp only
  rw [resolveBase16_of_hex isHexDigit_fmtHexUpper]
  simp only
  rw [fmtHexUpper_eq_map,
    parseDigits_map_upper padDigits_lt (padDigits_length_pos hw),
    padDigits_foldl]
  simp [hmin, hmax]

/-! ## C4: encode/validate round trip -/

theorem u32OfInt_ofNat {v : Nat} (h : v < 2 ^ 32) : u32OfInt (v : Int) = v := by
  unfold u32OfInt
  omega

set_option maxRecDepth 2048 in
theorem land_ff00 {v : Nat} (h : v < 256) : v &&& 0xFF00 = 0 := by
  have hall : ∀ x : Fin 256, (x : Nat) &&& 0xFF00 = 0 := by decide
  exact hall ⟨v, h⟩

theorem fmtHexUpper_isEmpty {w n : Nat} (hw : 0 < w) :
    (fmtHexUpper w n).isEmpty = false := by
  rw [fmtHexUpper_eq_map]
  cases hpd : padDigits w n with
  | nil =>
    exfalso
    have := padDigits_length_pos (n := n) hw
    rw [hpd] at this
    simp at this
  | cons d rest => simp

theorem filter_space_of_hex {cs : List Char} (h : ∀ c ∈ cs, isHexDigit c = true) :
    cs.filter (fun c => c ≠ ' ') = cs := by
  apply List.filter_eq_self.mpr
  intro a ha
  rw [decide_eq_true_eq]
  rintro rfl
  exact absurd (h ' ' ha) (by decide)

/-- `filter_space_of_hex`, phrased in the `simp`-normal form of the
space-dropping predicate. -/
theorem filter_space_of_hex' {cs : List Char} (h : ∀ c ∈ cs, isHexDigit c = true) :
    cs.filter (fun c => !decide (c = ' ')) = cs := by
  have := filter_space_of_hex h
  simpa using this

/-- C4 (amended): the encode/validate round trip holds for the six
integer encodings with `use_hex_base` enabled, for every unsigned value
in range and every non-negative signed value in range.  (Negative
signed values and the float encodings do not round-trip; see the
counterexample.) -/
theorem C4_roundtrip_amended (fp dp : List Char → Option Nat) (v : Nat) :
    (v ≤ 0x7F →
      validateHexString fp dp (fmtHexUpper 2 v) .S8 true = some (fmtHexUpper 2 v)) ∧
    (v ≤ 0x7FFF →
      validateHexString fp dp (fmtHexUpper 4 v) .S16 true = some (fmtHexUpper 4 v)) ∧
    (v ≤ 0x7FFFFFFF →
      validateHexString fp dp (fmtHexUpper 8 v) .S32 true = some (fmtHexUpper 8 v)) ∧
    (v ≤ 0xFF →
      validateHexString fp dp (fmtHexUpper 2 v) .U8 true = some (fmtHexUpper 2 v)) ∧
    (v ≤ 0xFFFF →
      validateHexString fp dp (fmtHexUpper 4 v) .U16 true = some (fmtHexUpper 4 v)) ∧
    (v ≤ 0xFFFFFFFF →
      validateHexString fp dp (fmtHexUpper 8 v) .U32 true = some (fmtHexUpper 8 v)) := by
  refine ⟨fun hv => ?_, fun hv => ?_, fun hv => ?_, fun hv => ?_, fun hv => ?_,
    fun hv => ?_⟩
  · have hfmt : qtToSigned 16 (-(2 ^ 15)) (2 ^ 15 - 1) (fmtHexUpper 2 v)
        = some (v : Int) :=
      qtToSigned_fmtHexUpper (by norm_num) (by omega) (by omega)
    norm_num at hfmt
    have harg : u32OfInt (v : Int) % 256 = v := by unfold u32OfInt; omega
    simp [validateHexString, fmtHexUpper_isEmpty (by norm_num : (0:Nat) < 2),
      filter_space_of_hex' isHexDigit_fmtHexUpper, baseCheckEnabled, hfmt, harg,
      show -(128 : Int) ≤ (v : Int) ∧ (v : Int) ≤ 127 by omega]
  · have hfmt : qtToSigned 16 (-(2 ^ 15)) (2 ^ 15 - 1) (fmtHexUpper 4 v)
        = some (v : Int) :=
      qtToSigned_fmtHexUpper (by norm_num) (by omega) (by omega)
    norm_num at hfmt
    have harg : u32OfInt (v : Int) % 65536 = v := by unfold u32OfInt; omega
    simp [validateHexString, fmtHexUpper_isEmpty (by norm_num : (0:Nat) < 4),
      filter_space_of_hex' isHexDigit_fmtHexUpper, baseCheckEnabled, hfmt, harg]
  · have hfmt : qtToSigned 16 (-(2 ^ 31)) (2 ^ 31 - 1) (fmtHexUpper 8 v)
        = some (v : Int) :=
      qtToSigned_fmtHexUpper (by norm_num) (by omega) (by omega)
    norm_num at hfmt
    have harg : u32OfInt (v : Int) = v := u32OfInt_ofNat (by omega)
    simp [validateHexString, fmtHexUpper_isEmpty (by norm_num : (0:Nat) < 8),
      filter_space_of_hex' isHexDigit_fmtHexUpper, baseCheckEnabled, hfmt, harg]
  · have hfmt : qtToUnsigned 16 (2 ^ 16 - 1) (fmtHexUpper 2 v) = some v :=
      qtToUnsigned_fmtHexUpper (by norm_num) (by omega)
    norm_num at hfmt
    have hland : v &&& 65280 = 0 := land_ff00 (by omega)
    simp [validateHexString, fmtHexUpper_isEmpty (by norm_num : (0:Nat) < 2),
      filter_space_of_hex' isHexDigit_fmtHexUpper, baseCheckEnabled, hfmt, hland]
  · have hfmt : qtToUnsigned 16 (2 ^ 16 - 1) (fmtHexUpper 4 v) = some v :=
      qtToUnsigned_fmtHexUpper (by norm_num) (by omega)
    norm_num at hfmt
    simp [validateHexString, fmtHexUpper_isEmpty (by norm_num : (0:Nat) < 4),
      filter_space_of_hex' isHexDigit_fmtHexUpper, baseCheckEnabled, hfmt]
  · have hfmt : qtToUnsigned 16 (2 ^ 32 - 1) (fmtHexUpper 8 v) = some v :=
      qtToUnsigned_fmtHexUpper (by norm_num) (by omega)
    norm_num at hfmt
    simp [validateHexString, fmtHexUpper_isEmpty (by norm_num : (0:Nat) < 8),
      filter_space_of_hex' isHexDigit_fmtHexUpper, baseCheckEnabled, hfmt]

/-- C4 counterexample: `-1` is in the S8 range and encodes as `FF`, but
re-validating `FF` under S8 (hex base) fails — `toShort` yields 255,
which the signed-8 range check rejects — so no byte sequence is
reproduced. -/
theorem C4_roundtrip_counterexample :
    fmtHexUpper 2 (u32OfInt (-1) % 2 ^ 8) = ['F', 'F'] ∧
    validateHexString (fun _ => none) (fun _ => none) ['F', 'F'] .S8 true = none := by
  constructor <;> decide

/-- Closed witness for `C4_roundtrip_amended` at `v = 18` under S8. -/
theorem C4_roundtrip_witness :
    18 ≤ 0x7F ∧
    validateHexString (fun _ => none) (fun _ => none) (fmtHexUpper 2 18) .S8 true
      = some (fmtHexUpper 2 18) :=
  ⟨by decide, (C4_roundtrip_amended (fun _ => none) (fun _ => none) 18).1 (by decide)⟩

/-! ## C3: the role of use_hex_base -/

theorem stripPlus_eq_of_head {cs : List Char} (h : cs.head? ≠ some '+') :
    stripPlus cs = cs := by
  unfold stripPlus
  split
  · rename_i rest
    simp at h
  · rfl

theorem splitSign_eq_of_head {cs : List Char} (h1 : cs.head? ≠ some '-')
    (h2 : cs.head? ≠ some '+') : splitSign cs = (false, cs) := by
  unfold splitSign
  split
  · rename_i rest
    simp at h1
  · rename_i rest
    simp at h2
  · rfl

/-- C auto-detection: a text that does not start with `0` is read in
base 10. -/
theorem resolveBase_zero_decimal {c : Char} (rest : List Char) (hc : c ≠ '0') :
    resolveBase 0 (c :: rest) = (10, c :: rest) := by
  cases rest with
  | nil =>
    show (if c = '0' then ((8 : Nat), [c]) else (10, [c])) = (10, [c])
    rw [if_neg hc]
  | cons x xs =>
    show (if c = '0' then
        (if x = 'x' ∨ x = 'X' then ((16 : Nat), xs) else (8, c :: x :: xs))
      else (10, c :: x :: xs)) = (10, c :: x :: xs)
    rw [if_neg hc]

/-- C auto-detection: a `0x`/`0X` mark selects base 16. -/
theorem resolveBase_zero_hexMark {x : Char} (rest : List Char)
    (hx : x = 'x' ∨ x = 'X') :
    resolveBase 0 ('0' :: x :: rest) = (16, rest) := by
  show (if '0' = '0' then
      (if x = 'x' ∨ x = 'X' then ((16 : Nat), rest) else (8, '0' :: x :: rest))
    else (10, '0' :: x :: rest)) = (16, rest)
  rw [if_pos rfl, if_pos hx]

/-- Explicit base 16 strips the same `0x`/`0X` mark. -/
theorem resolveBase_sixteen_hexMark {x : Char} (rest : List Char)
    (hx : x = 'x' ∨ x = 'X') :
    resolveBase 16 ('0' :: x :: rest) = (16, rest) := by
  show (if '0' = '0' ∧ (x = 'x' ∨ x = 'X') then ((16 : Nat), rest)
    else (16, '0' :: x :: rest)) = (16, rest)
  rw [if_pos ⟨rfl, hx⟩]

/-- With base 0, a text starting with a digit `1`-`9` parses exactly as
with base 10. -/
theorem qtToSigned_zero_eq_ten {mn mx : Int} {c : Char} {rest : List Char}
    (h1 : '1' ≤ c) (h9 : c ≤ '9') :
    qtToSigned 0 mn mx (c :: rest) = qtToSigned 10 mn mx (c :: rest) := by
  have hsgn : splitSign (c :: rest) = (false, c :: rest) :=
    splitSign_eq_of_head
      (by simp only [List.head?_cons, ne_eq, Option.some.injEq]
          rintro rfl
          exact absurd h1 (by decide))
      (by simp only [List.head?_cons, ne_eq, Option.some.injEq]
          rintro rfl
          exact absurd h1 (by decide))
  have hc0 : c ≠ '0' := by
    rintro rfl
    exact absurd h1 (by decide)
  unfold qtToSigned
  rw [hsgn]
  simp only
  rw [resolveBase_zero_decimal rest hc0,
    show resolveBase 10 (c :: rest) = (10, c :: rest) from rfl]

/-- Unsigned counterpart of `qtToSigned_zero_eq_ten`. -/
theorem qtToUnsigned_zero_eq_ten {mx : Nat} {c : Char} {rest : List Char}
    (h1 : '1' ≤ c) (h9 : c ≤ '9') :
    qtToUnsigned 0 mx (c :: rest) = qtToUnsigned 10 mx (c :: rest) := by
  have hst : stripPlus (c :: rest) = c :: rest :=
    stripPlus_eq_of_head
      (by simp only [List.head?_cons, ne_eq, Option.some.injEq]
          rintro rfl
          exact absurd h1 (by decide))
  have hc0 : c ≠ '0' := by
    rintro rfl
    exact absurd h1 (by decide)
  unfold qtToUnsigned
  rw [hst]
  simp only
  rw [resolveBase_zero_decimal rest hc0,
    show resolveBase 10 (c :: rest) = (10, c :: rest) from rfl]

/-- With base 0, a `0x`-marked text parses exactly as with base 16. -/
theorem qtToSigned_zero_eq_sixteen {mn mx : Int} {x : Char} {rest : List Char}
    (hx : x = 'x' ∨ x = 'X') :
    qtToSigned 0 mn mx ('0' :: x :: rest)
      = qtToSigned 16 mn mx ('0' :: x :: rest) := by
  have hsgn : splitSign ('0' :: x :: rest) = (false, '0' :: x :: rest) :=
    splitSign_eq_of_head (by simp) (by simp)
  unfold qtToSigned
  rw [hsgn]
  simp only
  rw [resolveBase_zero_hexMark rest hx, resolveBase_sixteen_hexMark rest hx]

/-- Unsigned counterpart of `qtToSigned_zero_eq_sixteen`. -/
theorem qtToUnsigned_zero_eq_sixteen {mx : Nat} {x : Char} {rest : List Char}
    (hx : x = 'x' ∨ x = 'X') :
    qtToUnsigned 0 mx ('0' :: x :: rest)
      = qtToUnsigned 16 mx ('0' :: x :: rest) := by
  have hst : stripPlus ('0' :: x :: rest) = '0' :: x :: rest :=
    stripPlus_eq_of_head (by simp)
  unfold qtToUnsigned
  rw [hst]
  simp only
  rw [resolveBase_zero_hexMark rest hx, resolveBase_sixteen_hexMark rest hx]

/-- C3 counterexample: on the S32 text `010` with `use_hex_base`
disabled, the validation the spec describes (base 10) accepts the value
10, while the code's validation (radix 0, C convention: octal here)
accepts 8 — the two disagree at this input, refuting "when disabled the
value text is parsed in base 10". -/
theorem C3_hexbase_counterexample :
    validateHexStringSpecBase10 (fun _ => none) (fun _ => none)
      ['0', '1', '0'] .S32 false = some (fmtHexUpper 8 10) ∧
    validateHexString (fun _ => none) (fun _ => none)
      ['0', '1', '0'] .S32 false = some (fmtHexUpper 8 8) ∧
    validateHexString (fun _ => none) (fun _ => none)
        ['0', '1', '0'] .S32 false
      ≠ validateHexStringSpecBase10 (fun _ => none) (fun _ => none)
        ['0', '1', '0'] .S32 false :=
  ⟨by decide, by decide, by decide⟩

/-- C3 (amended): the hex-base checkbox is enabled exactly for the six
integer encodings; for them, the value text (spaces removed) is parsed
with base 16 when the box is checked and with base 0 (C convention:
`0x` means hex, a leading `0` means octal, otherwise decimal) when it
is not; the box has no effect on the FLOAT, DOUBLE, ASCII and HEXSTR
encodings.  Consequently the spec's base-10 description is accurate
whenever the box is checked or the encoding is not an integer one, and
also with the box unchecked whenever the (space-stripped) text starts
with a digit `1`-`9`; a `0x`-marked text parses the same whether or not
the box is checked. -/
theorem C3_hexbase_amended (fp dp : List Char → Option Nat) (t : List Char)
    (b : Bool) (ht : t ≠ []) :
    (baseCheckEnabled .S8 = true ∧ baseCheckEnabled .S16 = true ∧
      baseCheckEnabled .S32 = true ∧ baseCheckEnabled .U8 = true ∧
      baseCheckEnabled .U16 = true ∧ baseCheckEnabled .U32 = true ∧
      baseCheckEnabled .HEXSTR = false ∧ baseCheckEnabled .FLOAT = false ∧
      baseCheckEnabled .DOUBLE = false ∧ baseCheckEnabled .ASCII = false) ∧
    (validateHexString fp dp t .S8 b
      = match qtToSigned (if b then 16 else 0) (-(2 ^ 15)) (2 ^ 15 - 1)
          (t.filter (fun c => c ≠ ' ')) with
        | some v =>
          if -(2 ^ 7) ≤ v ∧ v ≤ 2 ^ 7 - 1
            then some (fmtHexUpper 2 (u32OfInt v % 2 ^ 8)) else none
        | none => none) ∧
    (validateHexString fp dp t .S16 b
      = (qtToSigned (if b then 16 else 0) (-(2 ^ 15)) (2 ^ 15 - 1)
          (t.filter (fun c => c ≠ ' '))).map
            fun v => fmtHexUpper 4 (u32OfInt v % 2 ^ 16)) ∧
    (validateHexString fp dp t .S32 b
      = (qtToSigned (if b then 16 else 0) (-(2 ^ 31)) (2 ^ 31 - 1)
          (t.filter (fun c => c ≠ ' '))).map
            fun v => fmtHexUpper 8 (u32OfInt v)) ∧
    (validateHexString fp dp t .U8 b
      = match qtToUnsigned (if b then 16 else 0) (2 ^ 16 - 1)
          (t.filter (fun c => c ≠ ' ')) with
        | some v => if v &&& 0xFF00 = 0 then some (fmtHexUpper 2 v) else none
        | none => none) ∧
    (validateHexString fp dp t .U16 b
      = (qtToUnsigned (if b then 16 else 0) (2 ^ 16 - 1)
          (t.filter (fun c => c ≠ ' '))).map fun v => fmtHexUpper 4 v) ∧
    (validateHexString fp dp t .U32 b
      = (qtToUnsigned (if b then 16 else 0) (2 ^ 32 - 1)
          (t.filter (fun c => c ≠ ' '))).map fun v => fmtHexUpper 8 v) ∧
    (∀ combo, combo = InputID.FLOAT ∨ combo = InputID.DOUBLE ∨
        combo = InputID.ASCII ∨ combo = InputID.HEXSTR →
      validateHexString fp dp t combo b = validateHexString fp dp t combo false) ∧
    (∀ combo2, b = true ∨ baseCheckEnabled combo2 = false →
      validateHexString fp dp t combo2 b
        = validateHexStringSpecBase10 fp dp t combo2 b) ∧
    (∀ c rest, t.filter (fun ch => ch ≠ ' ') = c :: rest →
      '1' ≤ c → c ≤ '9' → ∀ combo2, baseCheckEnabled combo2 = true →
      validateHexString fp dp t combo2 false
        = validateHexStringSpecBase10 fp dp t combo2 false) ∧
    (∀ x rest, t.filter (fun ch => ch ≠ ' ') = '0' :: x :: rest →
      x = 'x' ∨ x = 'X' → ∀ combo2, baseCheckEnabled combo2 = true →
      validateHexString fp dp t combo2 false
        = validateHexString fp dp t combo2 true) := by
  refine ⟨by decide, ?_, ?_, ?_, ?_, ?_, ?_, ?_, ?_, ?_, ?_⟩
  · simp [validateHexString, baseCheckEnabled, ht]
  · simp [validateHexString, baseCheckEnabled, ht]
  · simp [validateHexString, baseCheckEnabled, ht]
  · simp [validateHexString, baseCheckEnabled, ht]
  · simp [validateHexString, baseCheckEnabled, ht]
  · simp [validateHexString, baseCheckEnabled, ht]
  · rintro combo (rfl | rfl | rfl | rfl) <;> simp [validateHexString, ht]
  · intro combo2 hcase
    cases combo2 <;>
      first
      | (simp [validateHexString, validateHexStringSpecBase10]
         done)
      | (rcases hcase with rfl | hfalse
         · simp [validateHexString, validateHexStringSpecBase10, baseCheckEnabled]
         · simp [baseCheckEnabled] at hfalse)
  · intro c rest hshape h1 h9 combo2 henb
    have hshape' := hshape
    simp only [ne_eq, decide_not] at hshape'
    have htne : t.isEmpty = false := by
      cases t with
      | nil => simp at hshape
      | cons a as => rfl
    cases combo2 <;> try (exact absurd henb (by decide))
    all_goals
      simp [validateHexString, validateHexStringSpecBase10, baseCheckEnabled,
        htne, hshape, hshape', qtToSigned_zero_eq_ten h1 h9,
        qtToUnsigned_zero_eq_ten h1 h9]
  · intro x rest hshape hx combo2 henb
    have hshape' := hshape
    simp only [ne_eq, decide_not] at hshape'
    have htne : t.isEmpty = false := by
      cases t with
      | nil => simp at hshape
      | cons a as => rfl
    cases combo2 <;> try (exact absurd henb (by decide))
    all_goals
      simp [validateHexString, baseCheckEnabled, htne, hshape, hshape',
        qtToSigned_zero_eq_sixteen hx, qtToUnsigned_zero_eq_sixteen hx]

/-- Closed witness for `C3_hexbase_amended` at text `1F`, showing the
checked box parses S32 text in base 16: `1F` validates to 31. -/
theorem C3_hexbase_witness :
    (['1', 'F'] : List Char) ≠ [] ∧
    validateHexString (fun _ => none) (fun _ => none) ['1', 'F'] .S32 true
      = some (fmtHexUpper 8 31) :=
  ⟨by decide, by
    have h := (C3_hexbase_amended (fun _ => none) (fun _ => none) ['1', 'F'] true
      (by decide)).2.2.2.1
    rw [h]
    decide⟩

/-! ## C8: failure leaves no value -/

/-- C8: whenever the encoding-specific parse or range check fails, the
preview is left empty and `GetInputData` returns the empty byte
sequence. -/
theorem C8_failure_empty (fp dp : List Char → Option Nat) (t : List Char)
    (combo : InputID) (b : Bool)
    (h : validateHexString fp dp t combo b = none) :
    validatePreview fp dp t combo b = [] ∧
    GetInputData t combo (validatePreview fp dp t combo b) = [] := by
  unfold validatePreview
  rw [h]
  simp [GetInputData]

/-- Closed witness for `C8_failure_empty`: the HEXSTR text `ZZ` fails
to validate and yields no preview and no bytes. -/
theorem C8_failure_empty_witness :
    validateHexString (fun _ => none) (fun _ => none) ['Z', 'Z'] .HEXSTR false
      = none ∧
    validatePreview (fun _ => none) (fun _ => none) ['Z', 'Z'] .HEXSTR false
      = [] ∧
    GetInputData ['Z', 'Z'] .HEXSTR
      (validatePreview (fun _ => none) (fun _ => none) ['Z', 'Z'] .HEXSTR false)
      = [] := by
  have h := C8_failure_empty (fun _ => none) (fun _ => none) ['Z', 'Z'] .HEXSTR
    false (by decide)
  exact ⟨by decide, h.1, h.2⟩

/-! ## C7: find error taxonomy -/

/-- C7: a bad address, a bad offset and an empty pattern are rejected
(in that order) before the region search runs, as three distinct
outcomes, and "not found" arises only when the region search itself
returns nothing. -/
theorem C7_find_errors (b e : Nat) (mem : Nat → Byte)
    (addrText offsetText : List Char) (data : List Byte) (next : Bool) :
    ((GetTargetAddress addrText offsetText).is_good_address = false →
      FindValue b e mem addrText offsetText data next = .badAddress) ∧
    ((GetTargetAddress addrText offsetText).is_good_address = true →
      (GetTargetAddress addrText offsetText).is_good_offset = false →
      FindValue b e mem addrText offsetText data next = .badOffset) ∧
    ((GetTargetAddress addrText offsetText).is_good_address = true →
      (GetTargetAddress addrText offsetText).is_good_offset = true →
      data = [] →
      FindValue b e mem addrText offsetText data next = .badValue) ∧
    (FindValue b e mem addrText offsetText data next = .notFound →
      (GetTargetAddress addrText offsetText).is_good_address = true ∧
      (GetTargetAddress addrText offsetText).is_good_offset = true ∧
      data ≠ [] ∧
      regionSearch b e mem
        (if ¬addrText.isEmpty then
          ((GetTargetAddress addrText offsetText).address
            + (if next then 1 else 2 ^ 32 - 1)) % 2 ^ 32
         else (GetTargetAddress addrText offsetText).address)
        data next = none) := by
  refine ⟨fun h1 => ?_, fun h1 h2 => ?_, fun h1 h2 h3 => ?_, fun h4 => ?_⟩
  · simp [FindValue, h1]
  · simp [FindValue, h1, h2]
  · simp [FindValue, h1, h2, h3]
  · simp only [FindValue] at h4
    split at h4
    · cases h4
    · split at h4
      · cases h4
      · split at h4
        · cases h4
        · rename_i hga hgo hdata
          rw [not_not] at hga hgo
          split at h4
          · cases h4
          · rename_i hs
            refine ⟨hga, hgo, by simpa using hdata, ?_⟩
            exact hs

/-- Closed witness for `C7_find_errors`: an unparsable address text is
reported as a bad address. -/
theorem C7_find_errors_witness :
    FindValue 0 1 (fun _ => 0) ['z'] [] [0] true = .badAddress :=
  (C7_find_errors 0 1 (fun _ => 0) ['z'] [] [0] true).1 (by decide)

/-! ## C5: preview truncation machinery -/

theorem filter_insertIdx_space (p : Char → Bool) (hp : p ' ' = false) :
    ∀ (n : Nat) (l : List Char),
      (List.insertIdx n ' ' l).filter p = l.filter p := by
  intro n
  induction n with
  | zero => intro l; simp [List.insertIdx_zero, List.filter_cons, hp]
  | succ n ih =>
    intro l
    cases l with
    | nil => rfl
    | cons c cs =>
      rw [List.insertIdx_succ_cons]
      by_cases hpc : p c <;> simp [List.filter_cons, hpc, ih cs]

theorem filter_foldl_insertIdx (p : Char → Bool) (hp : p ' ' = false)
    (f : Nat → Nat) : ∀ (ks : List Nat) (s : List Char),
      (ks.foldl (fun t k => List.insertIdx (f k) ' ' t) s).filter p
        = s.filter p := by
  intro ks
  induction ks with
  | nil => intro s; rfl
  | cons k rest ih =>
    intro s
    rw [List.foldl_cons, ih, filter_insertIdx_space p hp]

theorem filter_insertSpacesLoop (p : Char → Bool) (hp : p ' ' = false)
    (s : List Char) (L : Nat) :
    (insertSpacesLoop s L).filter p = s.filter p :=
  filter_foldl_insertIdx p hp (fun k => L - (2 * k + 2)) _ s

theorem isHexDigit_bytesToHexLower {l : List Byte} :
    ∀ c ∈ bytesToHexLower l, isHexDigit c = true := by
  induction l with
  | nil => intro c hc; cases hc
  | cons b rest ih =>
    intro c hc
    rcases hc with _ | ⟨_, hc⟩
    · simp [isHexDigit, hexDigitVal?_lower (Nat.mod_lt _ (by norm_num))]
    · rcases hc with _ | ⟨_, hc⟩
      · simp [isHexDigit, hexDigitVal?_lower (Nat.mod_lt _ (by norm_num))]
      · exact ih c hc

theorem u32OfInt_lt (i : Int) : u32OfInt i < 2 ^ 32 := by
  unfold u32OfInt
  omega

theorem fmtHexUpper_length_le {w k n : Nat} (h : n < 16 ^ k) :
    (fmtHexUpper w n).length ≤ Max.max w k := by
  rw [fmtHexUpper_eq_map, List.length_map]
  unfold padDigits
  have := toHexDigits_length h
  simp only [List.length_append, List.length_replicate]
  omega

/-- Every character of a successful `hex_string` is a hex digit. -/
theorem validateHexString_hex {fp dp : List Char → Option Nat} {t : List Char}
    {combo : InputID} {b : Bool} {h : List Char}
    (hv : validateHexString fp dp t combo b = some h) :
    ∀ c ∈ h, isHexDigit c = true := by
  unfold validateHexString at hv
  split at hv
  · cases hv
  · cases combo <;> simp only at hv
    · -- S8
      split at hv
      · split at hv
        · cases hv; exact isHexDigit_fmtHexUpper
        · cases hv
      · cases hv
    · -- S16
      rcases Option.map_eq_some'.mp hv with ⟨v, -, rfl⟩
      exact isHexDigit_fmtHexUpper
    · -- S32
      rcases Option.map_eq_some'.mp hv with ⟨v, -, rfl⟩
      exact isHexDigit_fmtHexUpper
    · -- U8
      split at hv
      · split at hv
        · cases hv; exact isHexDigit_fmtHexUpper
        · cases hv
      · cases hv
    · -- U16
      rcases Option.map_eq_some'.mp hv with ⟨v, -, rfl⟩
      exact isHexDigit_fmtHexUpper
    · -- U32
      rcases Option.map_eq_some'.mp hv with ⟨v, -, rfl⟩
      exact isHexDigit_fmtHexUpper
    · -- HEXSTR
      rcases ite_eq_iff.mp hv with ⟨-, hv2⟩ | ⟨-, hv2⟩
      · cases hv2; exact isHexDigit_bytesToHexLower
      · cases hv2
    · -- FLOAT
      rcases Option.map_eq_some'.mp hv with ⟨bits, -, rfl⟩
      exact isHexDigit_fmtHexUpper
    · -- DOUBLE
      rcases Option.map_eq_some'.mp hv with ⟨bits, -, rfl⟩
      exact isHexDigit_fmtHexUpper
    · -- ASCII
      cases hv
      exact isHexDigit_bytesToHexLower

/-- A successful `hex_string` of a non-ASCII, non-HEXSTR encoding has
at most 16 characters (at most 8 encoded bytes). -/
theorem validateHexString_length {fp dp : List Char → Option Nat} {t : List Char}
    {combo : InputID} {b : Bool} {h : List Char}
    (hv : validateHexString fp dp t combo b = some h)
    (ha : combo ≠ .ASCII) (hh : combo ≠ .HEXSTR) : h.length ≤ 16 := by
  unfold validateHexString at hv
  split at hv
  · cases hv
  · cases combo <;> simp only at hv
    · split at hv
      · rename_i v hq
        split at hv
        · cases hv
          have := fmtHexUpper_length_le (w := 2) (k := 2)
            (by omega : u32OfInt v % 2 ^ 8 < 16 ^ 2)
          omega
        · cases hv
      · cases hv
    · rcases Option.map_eq_some'.mp hv with ⟨v, -, rfl⟩
      have := fmtHexUpper_length_le (w := 4) (k := 4)
        (by omega : u32OfInt v % 2 ^ 16 < 16 ^ 4)
      omega
    · rcases Option.map_eq_some'.mp hv with ⟨v, -, rfl⟩
      have := fmtHexUpper_length_le (w := 8) (k := 8)
        (by have := u32OfInt_lt v; omega : u32OfInt v < 16 ^ 8)
      omega
    · split at hv
      · rename_i v hle
        split at hv
        · cases hv
          have hvle := qtToUnsigned_le hle
          have := fmtHexUpper_length_le (w := 2) (k := 4)
            (by omega : v < 16 ^ 4)
          omega
        · cases hv
      · cases hv
    · rcases Option.map_eq_some'.mp hv with ⟨v, hle, rfl⟩
      have hvle := qtToUnsigned_le hle
      have := fmtHexUpper_length_le (w := 4) (k := 4) (by omega : v < 16 ^ 4)
      omega
    · rcases Option.map_eq_some'.mp hv with ⟨v, hle, rfl⟩
      have hvle := qtToUnsigned_le hle
      have := fmtHexUpper_length_le (w := 8) (k := 8) (by omega : v < 16 ^ 8)
      omega
    · exact absurd rfl hh
    · rcases Option.map_eq_some'.mp hv with ⟨bits, -, rfl⟩
      have := fmtHexUpper_length_le (w := 8) (k := 8)
        (by omega : bits % 2 ^ 32 < 16 ^ 8)
      omega
    · rcases Option.map_eq_some'.mp hv with ⟨bits, -, rfl⟩
      have := fmtHexUpper_length_le (w := 16) (k := 16)
        (by omega : bits % 2 ^ 64 < 16 ^ 16)
      omega
    · exact absurd rfl ha

theorem fromHexAux_filter_space :
    ∀ (l : List Char) (pend : Option Nat) (acc : List Byte),
      fromHexAux (l.filter fun c => c ≠ ' ') pend acc = fromHexAux l pend acc := by
  intro l
  induction l with
  | nil => intro pend acc; rfl
  | cons c rest ih =>
    intro pend acc
    have ih' : ∀ (pend : Option Nat) (acc : List Byte),
        fromHexAux (rest.filter fun c => !decide (c = ' ')) pend acc
          = fromHexAux rest pend acc := by
      intro pend acc
      have := ih pend acc
      simpa using this
    by_cases hc : c = ' '
    · subst hc
      simp only [List.filter_cons, decide_not, decide_eq_true_eq]
      rw [if_neg (by simp)]
      cases pend <;>
        simp [fromHexAux, show hexDigitVal? ' ' = none from rfl, ih']
    · simp only [List.filter_cons]
      rw [if_pos (by simp [hc])]
      cases hd : hexDigitVal? c <;> cases pend <;> simp [fromHexAux, hd, ih']

theorem fromHexQt_filter_space (t : List Char) :
    fromHexQt (t.filter fun c => c ≠ ' ') = fromHexQt t := by
  unfold fromHexQt
  rw [← List.filter_reverse, fromHexAux_filter_space]

/-- C5: when an encoded value overflows the 8-byte display budget, the
preview (spaces removed) is exactly the first 16 hex characters
followed by `...`; only the variable-width encodings (ASCII, HEXSTR)
can reach this case, and for them `GetInputData` extracts the full
byte sequence from the original edit text, not from the truncated
preview. -/
theorem C5_preview_truncation (fp dp : List Char → Option Nat) (t : List Char)
    (combo : InputID) (b : Bool) (h : List Char)
    (hv : validateHexString fp dp t combo b = some h)
    (hlen : 16 < h.length) :
    (previewText h).filter (fun c => c ≠ ' ') = h.take 16 ++ ['.', '.', '.'] ∧
    (combo = .ASCII ∨ combo = .HEXSTR) ∧
    (combo = .ASCII → GetInputData t combo (previewText h) = utf8Bytes t) ∧
    (combo = .HEXSTR → GetInputData t combo (previewText h) = fromHexQt t ∧
      bytesToHexLower (fromHexQt t) = h) := by
  have hhex := validateHexString_hex hv
  have ha : (previewText h).filter (fun c => c ≠ ' ')
      = h.take 16 ++ ['.', '.', '.'] := by
    unfold previewText
    rw [if_pos hlen, filter_insertSpacesLoop _ (by decide), List.filter_append,
      filter_space_of_hex (fun c hc => hhex c (List.take_subset _ _ hc))]
    congr 1
  have hpne : previewText h ≠ [] := by
    intro h0
    rw [h0] at ha
    simp at ha
  refine ⟨ha, ?_, ?_, ?_⟩
  · by_contra hcon
    push_neg at hcon
    have := validateHexString_length hv hcon.1 hcon.2
    omega
  · rintro rfl
    unfold GetInputData
    rw [if_neg (by simpa using hpne), if_pos rfl]
  · rintro rfl
    constructor
    · unfold GetInputData
      rw [if_neg (by simpa using hpne), if_neg (by decide), if_pos rfl]
    · unfold validateHexString at hv
      split at hv
      · cases hv
      · simp only at hv
        rcases ite_eq_iff.mp hv with ⟨-, hv2⟩ | ⟨-, hv2⟩
        · cases hv2
          rw [if_pos (show InputID.HEXSTR ≠ InputID.ASCII from by decide),
            fromHexQt_filter_space]
        · cases hv2

/-- Closed witness for `C5_preview_truncation`: an 18-digit (9-byte)
HEXSTR input is previewed truncated to 16 hex characters plus the
ellipsis. -/
theorem C5_preview_truncation_witness :
    validateHexString (fun _ => none) (fun _ => none)
      ['0', '0', '1', '1', '2', '2', '3', '3', '4', '4', '5', '5', '6', '6',
        '7', '7', '8', '8'] .HEXSTR false
      = some ['0', '0', '1', '1', '2', '2', '3', '3', '4', '4', '5', '5', '6',
        '6', '7', '7', '8', '8'] ∧
    (previewText ['0', '0', '1', '1', '2', '2', '3', '3', '4', '4', '5', '5',
        '6', '6', '7', '7', '8', '8']).filter (fun c => c ≠ ' ')
      = ['0', '0', '1', '1', '2', '2', '3', '3', '4', '4', '5', '5', '6', '6',
        '7', '7', '.', '.', '.'] :=
  ⟨by decide, by
    have h := (C5_preview_truncation (fun _ => none) (fun _ => none)
      ['0', '0', '1', '1', '2', '2', '3', '3', '4', '4', '5', '5', '6', '6',
        '7', '7', '8', '8'] .HEXSTR false
      ['0', '0', '1', '1', '2', '2', '3', '3', '4', '4', '5', '5', '6', '6',
        '7', '7', '8', '8'] (by decide) (by decide)).1
    rw [h]
    decide⟩

/-! ## Region search bounds -/

/-- A successful region search returns a position inside the region
whose pattern matches, no earlier (forward) or later (backward) than
the start. -/
theorem regionSearch_some {b e : Nat} {mem : Nat → Byte} {start : Nat}
    {pat : List Byte} {fwd : Bool} {a : Nat}
    (h : regionSearch b e mem start pat fwd = some a) :
    b ≤ a ∧ a + pat.length ≤ e ∧ 0 < pat.length ∧ matchesAt mem pat a = true ∧
    (fwd = true → start ≤ a) ∧ (fwd = false → a ≤ start) := by
  simp only [regionSearch] at h
  split at h
  · cases h
  · rename_i hcond
    push_neg at hcond
    split at h <;> rename_i hfwd
    · split at h
      · rename_i hlo
        have hmem := List.mem_of_find?_eq_some h
        have hpred := List.find?_some h
        rw [List.mem_range'_1] at hmem
        have hb : b ≤ Max.max b start := Nat.le_max_left _ _
        have hs : start ≤ Max.max b start := Nat.le_max_right _ _
        exact ⟨by omega, by omega, by omega, hpred, fun _ => by omega,
          fun hf => by rw [hf] at hfwd; cases hfwd⟩
      · cases h
    · split at h
      · rename_i hhi
        have hmem := List.mem_of_find?_eq_some h
        rw [List.mem_reverse, List.mem_range'_1] at hmem
        have hpred := List.find?_some h
        have h1 : Min.min start (e - pat.length) ≤ start := Nat.min_le_left _ _
        have h2 : Min.min start (e - pat.length) ≤ e - pat.length :=
          Nat.min_le_right _ _
        exact ⟨by omega, by omega, by omega, hpred,
          fun hf => absurd hf hfwd, fun _ => by omega⟩
      · cases h

/-- The address `GetTargetAddress` produces is always below `2^32`. -/
theorem GetTargetAddress_address_lt (a o : List Char) :
    (GetTargetAddress a o).address < 2 ^ 32 := by
  have hlt : (qtToUnsigned 16 (2 ^ 32 - 1) a).getD 0 < 2 ^ 32 := by
    cases ha : qtToUnsigned 16 (2 ^ 32 - 1) a with
    | none => simp
    | some v =>
      have := qtToUnsigned_le ha
      simpa using by omega
  have hlt' := hlt
  norm_num at hlt'
  simp only [GetTargetAddress, apply_ite TargetAddress.address]
  repeat' split
  all_goals omega

/-! ## C6: the repeat-find adjustment -/

/-- C6 counterexample: the address text `00000000` (non-empty)
resolves to 0, which is a match position; a backward repeated find
wraps the `-1` adjustment around to `2^32 - 1` and re-finds the same
position 0. -/
theorem C6_skip_counterexample :
    GetTargetAddress ['0', '0', '0', '0', '0', '0', '0', '0'] []
      = ⟨0, true, true⟩ ∧
    matchesAt (fun _ => 0) [0] 0 = true ∧
    FindValue 0 1 (fun _ => 0) ['0', '0', '0', '0', '0', '0', '0', '0'] []
      [0] false = .found 0 :=
  ⟨by decide, by decide, by decide⟩

/-- C6 (amended): with a non-empty address text the start position is
advanced by `+1`/`-1` *modulo `2^32`* before the region search, and
with an empty address text no adjustment is applied; a repeated find
from a known position never returns that same position provided the
adjustment does not wrap around (position below `2^32 - 1` for a
forward search, above 0 for a backward search). -/
theorem C6_skip_amended (b e : Nat) (mem : Nat → Byte)
    (addrText offsetText : List Char) (data : List Byte) (next : Bool) :
    (addrText = [] →
      (GetTargetAddress addrText offsetText).is_good_address = true →
      (GetTargetAddress addrText offsetText).is_good_offset = true →
      data ≠ [] → ∀ r,
      (FindValue b e mem addrText offsetText data next = .found r ↔
        regionSearch b e mem (GetTargetAddress addrText offsetText).address
          data next = some r)) ∧
    (addrText ≠ [] →
      (GetTargetAddress addrText offsetText).is_good_address = true →
      (GetTargetAddress addrText offsetText).is_good_offset = true →
      data ≠ [] → ∀ r,
      (FindValue b e mem addrText offsetText data next = .found r ↔
        regionSearch b e mem
          (((GetTargetAddress addrText offsetText).address +
            (if next then 1 else 2 ^ 32 - 1)) % 2 ^ 32) data next = some r)) ∧
    (∀ p, (GetTargetAddress addrText offsetText).address = p →
      addrText ≠ [] →
      (next = true → p + 1 < 2 ^ 32) →
      (next = false → 0 < p) →
      FindValue b e mem addrText offsetText data next ≠ .found p) := by
  refine ⟨?_, ?_, ?_⟩
  · intro h0 hga hgo hd r
    have h0' : addrText.isEmpty = true := by simp [h0]
    have hd' : data.isEmpty = false := by simpa using hd
    simp only [FindValue, hga, hgo, h0', hd', not_true_eq_false, if_false,
      Bool.false_eq_true, not_false_eq_true, if_true]
    cases hs : regionSearch b e mem
        (GetTargetAddress addrText offsetText).address data next <;>
      simp [hs]
  · intro hne hga hgo hd r
    have hne' : addrText.isEmpty = false := by simpa using hne
    have hd' : data.isEmpty = false := by simpa using hd
    simp only [FindValue, hga, hgo, hne', hd', not_true_eq_false, if_false,
      Bool.false_eq_true, not_false_eq_true, if_true]
    cases hs : regionSearch b e mem
        (((GetTargetAddress addrText offsetText).address +
          (if next then 1 else 2 ^ 32 - 1)) % 2 ^ 32) data next <;>
      simp [hs]
  · intro p hp hne h1 h2 heq
    have hne' : addrText.isEmpty = false := by simpa using hne
    have hplt : p < 2 ^ 32 := by
      rw [← hp]
      exact GetTargetAddress_address_lt _ _
    simp only [FindValue, hne', hp, Bool.false_eq_true, not_false_eq_true,
      if_true] at heq
    split at heq
    · cases heq
    · split at heq
      · cases heq
      · split at heq
        · cases heq
        · split at heq
          · rename_i x hs
            cases heq
            have hb := regionSearch_some hs
            cases next with
            | true =>
              have hp1 := h1 rfl
              rw [show ((p + (if (true : Bool) then 1 else 2 ^ 32 - 1)) % 2 ^ 32)
                  = p + 1 by
                simp only [if_true]
                omega] at hb
              have := hb.2.2.2.2.1 rfl
              omega
            | false =>
              rw [show ((p + (if (false : Bool) then 1 else 2 ^ 32 - 1)) % 2 ^ 32)
                  = p - 1 by
                simp only [Bool.false_eq_true, if_false]
                have hp1 := h2 rfl
                omega] at hb
              have := hb.2.2.2.2.2 rfl
              have hp1 := h2 rfl
              omega
          · cases heq

/-- Closed witness for `C6_skip_amended`: forward repeat from a match
at 0 in a two-byte region does not re-find position 0. -/
theorem C6_skip_witness :
    FindValue 0 2 (fun _ => 0) ['0', '0', '0', '0', '0', '0', '0', '0'] []
      [0] true ≠ .found 0 :=
  (C6_skip_amended 0 2 (fun _ => 0) ['0', '0', '0', '0', '0', '0', '0', '0']
    [] [0] true).2.2 0 (by decide) (by decide) (fun _ => by decide)
    (fun h => Bool.noConfusion h)

/-! ## C9: found address round trip -/

theorem FindValue_found_regionSearch {b e : Nat} {mem : Nat → Byte}
    {addrText offsetText : List Char} {data : List Byte} {next : Bool} {a : Nat}
    (hf : FindValue b e mem addrText offsetText data next = .found a) :
    ∃ start, regionSearch b e mem start data next = some a := by
  simp only [FindValue] at hf
  split at hf
  · cases hf
  · split at hf
    · cases hf
    · split at hf
      · cases hf
      · split at hf
        · rename_i x hs
          cases hf
          exact ⟨_, hs⟩
        · cases hf

theorem fmtHexLower_length {w n : Nat} (h : n < 16 ^ w) :
    (fmtHexLower w n).length = w := by
  rw [fmtHexLower_eq_map, List.length_map]
  unfold padDigits
  have := toHexDigits_length h
  simp only [List.length_append, List.length_replicate]
  omega

theorem hexDigitLower_no_upper {d : Nat} (h : d < 16) :
    ¬('A' ≤ hexDigitLower d ∧ hexDigitLower d ≤ 'F') := by
  interval_cases d <;> decide

/-- C9: after a successful find, the search-address text becomes the
found address as exactly 8 zero-padded lowercase hex digits, the offset
text is cleared, and resolving the new texts yields exactly the found
address with both flags good. -/
theorem C9_found_sets_address (b e : Nat) (mem : Nat → Byte)
    (addrText offsetText : List Char) (data : List Byte) (next : Bool)
    (a : Nat) (he : e ≤ 2 ^ 32)
    (hf : FindValue b e mem addrText offsetText data next = .found a) :
    findValueTexts b e mem addrText offsetText data next = (qtArgHex8 a, []) ∧
    (qtArgHex8 a).length = 8 ∧
    (∀ c ∈ qtArgHex8 a, isHexDigit c = true ∧
      ¬('A' ≤ c ∧ c ≤ 'F')) ∧
    GetTargetAddress (qtArgHex8 a) [] = ⟨a, true, true⟩ := by
  have halt : a < 2 ^ 32 := by
    rcases FindValue_found_regionSearch hf with ⟨start, hs⟩
    have hb := regionSearch_some hs
    omega
  refine ⟨?_, ?_, ?_, ?_⟩
  · unfold findValueTexts
    rw [hf]
  · exact fmtHexLower_length (by omega)
  · intro c hc
    rw [qtArgHex8, fmtHexLower_eq_map] at hc
    rcases List.mem_map.mp hc with ⟨d, hd, rfl⟩
    exact ⟨by simp [isHexDigit, hexDigitVal?_lower (padDigits_lt d hd)],
      hexDigitLower_no_upper (padDigits_lt d hd)⟩
  · have haddr : qtToUnsigned 16 (2 ^ 32 - 1) (qtArgHex8 a) = some a :=
      qtToUnsigned_fmtHexLower (by norm_num) (by omega)
    have hoff : qtToSigned 16 (-(2 ^ 31)) (2 ^ 31 - 1) ([] : List Char)
        = none := rfl
    simp only [GetTargetAddress, haddr, hoff, Option.getD_some,
      Option.getD_none, Option.isSome_some, Option.isSome_none,
      List.isEmpty_nil, Bool.true_or, Bool.false_or, Bool.true_and]
    norm_num [u32OfInt]
    omega

/-- Closed witness for `C9_found_sets_address` over a small region with
a match at address 1. -/
theorem C9_found_sets_address_witness :
    FindValue 0 2 (fun _ => 0) ['0', '0', '0', '0', '0', '0', '0', '0'] []
      [0] true = .found 1 ∧
    GetTargetAddress (qtArgHex8 1) [] = ⟨1, true, true⟩ :=
  ⟨by decide,
    (C9_found_sets_address 0 2 (fun _ => 0)
      ['0', '0', '0', '0', '0', '0', '0', '0'] [] [0] true 1
      (by norm_num) (by decide)).2.2.2⟩

/-! ## C10: ASCII encoding, Latin-1 preview vs UTF-8 extraction -/

theorem utf8Char_ascii {c : Char} (h : c.toNat < 128) :
    utf8Char c = [c.toNat] := by
  unfold utf8Char
  rw [if_pos h]

theorem latin1Char_ascii {c : Char} (h : c.toNat < 128) :
    latin1Char c = [c.toNat] := by
  unfold latin1Char
  rw [if_pos (by omega)]

theorem latin1Char_lt_utf8Char {c : Char} (h : 128 ≤ c.toNat) :
    (latin1Char c).length < (utf8Char c).length := by
  simp only [latin1Char, utf8Char]
  repeat' split
  all_goals simp only [List.length_cons, List.length_nil]
  all_goals omega

theorem latin1Char_le_utf8Char (c : Char) :
    (latin1Char c).length ≤ (utf8Char c).length := by
  by_cases h : c.toNat < 128
  · rw [latin1Char_ascii h, utf8Char_ascii h]
  · exact le_of_lt (latin1Char_lt_utf8Char (by omega))

theorem latin1Char_length_pos (c : Char) : 0 < (latin1Char c).length := by
  unfold latin1Char
  repeat' split
  all_goals simp

theorem latin1Bytes_length_ge (t : List Char) :
    t.length ≤ (latin1Bytes t).length := by
  induction t with
  | nil => simp [latin1Bytes]
  | cons c rest ih =>
    simp only [latin1Bytes, List.length_append, List.length_cons]
    have := latin1Char_length_pos c
    omega

theorem bytesToHexLower_length (l : List Byte) :
    (bytesToHexLower l).length = 2 * l.length := by
  induction l with
  | nil => rfl
  | cons b rest ih =>
    simp only [bytesToHexLower, List.length_cons, ih]
    omega

/-- Per-character length comparison, summed over a text. -/
theorem latin1Bytes_le_utf8Bytes (t : List Char) :
    (latin1Bytes t).length ≤ (utf8Bytes t).length := by
  induction t with
  | nil => simp [latin1Bytes, utf8Bytes]
  | cons c rest ih =>
    simp only [utf8Bytes, latin1Bytes, List.length_append]
    have := latin1Char_le_utf8Char c
    omega

/-- A text containing any non-ASCII character has a strictly longer
UTF-8 rendering than Latin-1 rendering. -/
theorem latin1_lt_utf8_of_mem {c : Char} (hge : 128 ≤ c.toNat) :
    ∀ {t : List Char}, c ∈ t →
      (latin1Bytes t).length < (utf8Bytes t).length := by
  intro t
  induction t with
  | nil => intro hc; cases hc
  | cons d rest ih =>
    intro hc
    simp only [utf8Bytes, latin1Bytes, List.length_append]
    rcases List.mem_cons.mp hc with rfl | hmem
    · have h1 := latin1Char_lt_utf8Char hge
      have h2 := latin1Bytes_le_utf8Bytes rest
      omega
    · have h1 := latin1Char_le_utf8Char d
      have h2 := ih hmem
      omega

/-- The UTF-8 and Latin-1 byte renderings agree exactly on 7-bit ASCII
texts. -/
theorem utf8_eq_latin1_iff (t : List Char) :
    utf8Bytes t = latin1Bytes t ↔ ∀ c ∈ t, c.toNat < 128 := by
  constructor
  · intro heq
    by_contra hcon
    push_neg at hcon
    rcases hcon with ⟨c, hc, hge⟩
    have hlt := latin1_lt_utf8_of_mem hge hc
    rw [heq] at hlt
    omega
  · intro hall
    induction t with
    | nil => rfl
    | cons c rest ih =>
      simp only [utf8Bytes, latin1Bytes]
      rw [utf8Char_ascii (hall c (List.mem_cons_self _ _)),
        latin1Char_ascii (hall c (List.mem_cons_self _ _)),
        ih (fun x hx => hall x (List.mem_cons_of_mem _ hx))]

/-- C10: under ASCII every non-empty text validates; the preview hex is
the Latin-1 rendering of the text while `GetInputData` returns its
UTF-8 bytes; the two byte sequences coincide exactly when the text is
pure 7-bit ASCII, and otherwise the extracted sequence is longer than
the previewed one. -/
theorem C10_ascii (fp dp : List Char → Option Nat) (t : List Char) (b : Bool)
    (ht : t ≠ []) :
    validateHexString fp dp t .ASCII b
      = some (bytesToHexLower (latin1Bytes t)) ∧
    GetInputData t .ASCII (validatePreview fp dp t .ASCII b) = utf8Bytes t ∧
    (utf8Bytes t = latin1Bytes t ↔ ∀ c ∈ t, c.toNat < 128) ∧
    ((∃ c ∈ t, 128 ≤ c.toNat) →
      (latin1Bytes t).length < (utf8Bytes t).length) := by
  have hval : validateHexString fp dp t .ASCII b
      = some (bytesToHexLower (latin1Bytes t)) := by
    simp [validateHexString, ht]
  have hhexne : bytesToHexLower (latin1Bytes t) ≠ [] := by
    intro h0
    have h1 := bytesToHexLower_length (latin1Bytes t)
    have h2 := latin1Bytes_length_ge t
    rw [h0] at h1
    simp only [List.length_nil] at h1
    exact ht (List.eq_nil_of_length_eq_zero (by omega))
  have hpne : previewText (bytesToHexLower (latin1Bytes t)) ≠ [] := by
    intro h0
    have hthis : (previewText (bytesToHexLower (latin1Bytes t))).filter
        (fun c => c ≠ ' ') = [] := by rw [h0]; rfl
    unfold previewText at hthis
    split at hthis
    · rw [filter_insertSpacesLoop _ (by decide), List.filter_append,
        filter_space_of_hex (fun c hc =>
          isHexDigit_bytesToHexLower c (List.take_subset _ _ hc))] at hthis
      simp at hthis
    · rw [filter_insertSpacesLoop _ (by decide), filter_space_of_hex
        (fun c hc => isHexDigit_bytesToHexLower c hc)] at hthis
      exact hhexne hthis
  refine ⟨hval, ?_, utf8_eq_latin1_iff t, ?_⟩
  · unfold validatePreview
    rw [hval]
    unfold GetInputData
    rw [if_neg (by simpa using hpne), if_pos rfl]
  · rintro ⟨c, hc, hge⟩
    exact latin1_lt_utf8_of_mem hge hc

/-- Closed witness for `C10_ascii` at the one-character ASCII text
`a`. -/
theorem C10_ascii_witness :
    validateHexString (fun _ => none) (fun _ => none) ['a'] .ASCII false
      = some (bytesToHexLower (latin1Bytes ['a'])) ∧
    GetInputData ['a'] .ASCII
      (validatePreview (fun _ => none) (fun _ => none) ['a'] .ASCII false)
      = utf8Bytes ['a'] :=
  ⟨(C10_ascii (fun _ => none) (fun _ => none) ['a'] false (by decide)).1,
    (C10_ascii (fun _ => none) (fun _ => none) ['a'] false (by decide)).2.1⟩

end MemoryWidget
